import Mathlib

/-!
Verification of the card-reader-forwarder relay system.

The development shallowly embeds the three JavaScript processes:
  - the relay broker (`src/server/websocket-server.js`, class `WebSocketRelayServer`),
  - the egress executor (`src/master/app.js`, class `MasterProxy`),
  - the ingress adapter (`src/client/app.js`, class `ClientProxy`).

JavaScript `Map` objects become association lists with JS `Map` semantics
(`set` replaces in place or appends, `get` finds the first matching key,
`delete` removes all entries with the key — a JS `Map` never has two equal
keys, so removal of at most one entry coincides with filtering).  JSON
values become the inductive `JValue`.  Each message handler becomes a pure
function from state and message to new state plus a list of emitted
outputs.
-/

set_option autoImplicit false

namespace CardReaderForwarder

/-! ## Association-list maps with JS `Map` semantics -/

/-- JS `Map.prototype.get`: first entry with the key, if any. -/
def jmGet {κ α : Type} [DecidableEq κ] (m : List (κ × α)) (k : κ) : Option α :=
  match m with
  | [] => none
  | (k0, v0) :: rest => if k0 = k then some v0 else jmGet rest k

/-- JS `Map.prototype.has`. -/
def jmHas {κ α : Type} [DecidableEq κ] (m : List (κ × α)) (k : κ) : Bool :=
  (jmGet m k).isSome

/-- JS `Map.prototype.set`: replace the value in place when the key is
present, otherwise append the new entry at the end. -/
def jmSet {κ α : Type} [DecidableEq κ] (m : List (κ × α)) (k : κ) (v : α) :
    List (κ × α) :=
  match m with
  | [] => [(k, v)]
  | (k0, v0) :: rest =>
      if k0 = k then (k0, v) :: rest else (k0, v0) :: jmSet rest k v

/-- JS `Map.prototype.delete` (on a duplicate-free map): drop the entries
with the key. -/
def jmDelete {κ α : Type} [DecidableEq κ] (m : List (κ × α)) (k : κ) :
    List (κ × α) :=
  match m with
  | [] => []
  | (k0, v0) :: rest =>
      if k0 = k then jmDelete rest k else (k0, v0) :: jmDelete rest k

/-- The keys of the map are pairwise distinct, as in every JS `Map`. -/
def nodupKeys {κ α : Type} (m : List (κ × α)) : Prop :=
  (m.map Prod.fst).Nodup

/-! ## JSON values

Envelope payloads are JSON; the broker copies them around opaquely and the
egress executor inspects their shape (`typeof body === 'object'`). -/

inductive JValue : Type where
  | jnull : JValue
  | jbool : Bool → JValue
  | jnum : Int → JValue
  | jstr : String → JValue
  | jarr : List JValue → JValue
  | jobj : List (String × JValue) → JValue


/-- JS truthiness of a JSON value (`null`, `false`, `0`, `""` are falsy;
every array and object is truthy). -/
def jsTruthy : JValue → Bool
  | .jnull => false
  | .jbool b => b
  | .jnum n => n != 0
  | .jstr s => s ≠ ""
  | .jarr _ => true
  | .jobj _ => true

/-- Whether `typeof v === 'object'` holds in JS (`typeof null` is
`'object'`; arrays and objects are objects). -/
def jsTypeofObject : JValue → Bool
  | .jnull => true
  | .jarr _ => true
  | .jobj _ => true
  | _ => false

/-- JSON string escaping as performed by `JSON.stringify`. -/
def jsonEscapeChar (c : Char) : String :=
  if c = '"' then "\\\""
  else if c = '\\' then "\\\\"
  else if c = '\n' then "\\n"
  else if c = '\r' then "\\r"
  else if c = '\t' then "\\t"
  else String.singleton c

def jsonEscape (s : String) : String :=
  String.join (s.toList.map jsonEscapeChar)

mutual

/-- `JSON.stringify` on the JSON value model. -/
def jsonStringify : JValue → String
  | .jnull => "null"
  | .jbool true => "true"
  | .jbool false => "false"
  | .jnum n => toString n
  | .jstr s => "\"" ++ jsonEscape s ++ "\""
  | .jarr xs => "[" ++ jsonStringifyList xs ++ "]"
  | .jobj fs => "\x7b" ++ jsonStringifyFields fs ++ "\x7d"

def jsonStringifyList : List JValue → String
  | [] => ""
  | [x] => jsonStringify x
  | x :: xs => jsonStringify x ++ "," ++ jsonStringifyList xs

def jsonStringifyFields : List (String × JValue) → String
  | [] => ""
  | [(k, v)] => "\"" ++ jsonEscape k ++ "\":" ++ jsonStringify v
  | (k, v) :: fs =>
      "\"" ++ jsonEscape k ++ "\":" ++ jsonStringify v ++ "," ++
        jsonStringifyFields fs

end

/-! ## Wire messages

A parsed JSON message, with one optional field per property any of the
three processes ever reads or writes.  A field that is `none` corresponds
to an absent (`undefined`) property. -/

structure WireMsg : Type where
  type : Option String := none
  role : Option String := none
  clientId : Option String := none
  requestId : Option String := none
  method : Option String := none
  path : Option String := none
  headers : Option JValue := none
  body : Option JValue := none
  query : Option JValue := none
  statusCode : Option Int := none
  error : Option String := none


/-- Connections are identified by an abstract id (object identity of the
`ws` handle in the JS source). -/
abbrev ConnId := Nat

/-! ## The relay broker (`src/server/websocket-server.js`) -/

/-- One entry of the broker's `pendingRequests` map:
`\x7b clientWs, originalRequest \x7d`. -/
structure Pending : Type where
  clientWs : ConnId
  originalRequest : WireMsg


/-- The mutable fields of `WebSocketRelayServer`, together with the
`clientId` property the broker stores on client `ws` objects. -/
structure ServerState : Type where
  clients : List (String × ConnId)
  master : Option ConnId
  requestId : Nat
  pendingRequests : List (String × Pending)
  wsClientId : List (ConnId × String)


def initialServerState : ServerState :=
  { clients := [], master := none, requestId := 0, pendingRequests := [],
    wsClientId := [] }

/-- A message the broker writes to one of its connections
(`ws.send(JSON.stringify(...))`). -/
inductive SOut : Type where
  | send : ConnId → WireMsg → SOut


/-- `WebSocketRelayServer.handleRegistration`.  `now` stands for
`Date.now()`. -/
def handleRegistration (s : ServerState) (ws : ConnId) (m : WireMsg)
    (now : Nat) : ServerState × List SOut :=
  if m.role = some "master" then
    ({ s with master := some ws },
     [.send ws { type := some "registered", role := some "master" }])
  else if m.role = some "client" then
    let clientId :=
      match m.clientId with
      | some c => if c = "" then "client_" ++ toString now else c
      | none => "client_" ++ toString now
    ({ s with clients := jmSet s.clients clientId ws,
              wsClientId := jmSet s.wsClientId ws clientId },
     [.send ws { type := some "registered", role := some "client",
                 clientId := some clientId }])
  else (s, [])

/-- `WebSocketRelayServer.handleRequest`.  `now` stands for `Date.now()`
in the generated request id. -/
def handleRequest (s : ServerState) (ws : ConnId) (m : WireMsg)
    (now : Nat) : ServerState × List SOut :=
  match s.master with
  | none =>
      (s, [.send ws { type := some "error", requestId := m.requestId,
                      error := some "Master computer not available" }])
  | some masterWs =>
      let generated := "req_" ++ toString (s.requestId + 1) ++ "_" ++
        toString now
      let (rid, ctr) :=
        match m.requestId with
        | some r => if r = "" then (generated, s.requestId + 1)
                    else (r, s.requestId)
        | none => (generated, s.requestId + 1)
      let forwardMessage : WireMsg :=
        { type := some "request", requestId := some rid,
          method := m.method, path := m.path, headers := m.headers,
          body := m.body, query := m.query }
      ({ s with requestId := ctr,
                pendingRequests := jmSet s.pendingRequests rid
                  { clientWs := ws, originalRequest := m } },
       [.send masterWs forwardMessage])

/-- `WebSocketRelayServer.handleResponse`. -/
def handleResponse (s : ServerState) (ws : ConnId) (m : WireMsg) :
    ServerState × List SOut :=
  if s.master = some ws then
    match m.requestId with
    | none => (s, [])
    | some r =>
        match jmGet s.pendingRequests r with
        | none => (s, [])
        | some pending =>
            let responseMessage : WireMsg :=
              { type := some "response", requestId := m.requestId,
                statusCode := m.statusCode, headers := m.headers,
                body := m.body }
            ({ s with pendingRequests := jmDelete s.pendingRequests r },
             [.send pending.clientWs responseMessage])
  else (s, [])

/-- `WebSocketRelayServer.handleMessage`: dispatch on `message.type`. -/
def handleMessage (s : ServerState) (ws : ConnId) (m : WireMsg)
    (now : Nat) : ServerState × List SOut :=
  match m.type with
  | some "register" => handleRegistration s ws m now
  | some "request" => handleRequest s ws m now
  | some "response" => handleResponse s ws m
  | _ => (s, [])

/-- `WebSocketRelayServer.handleDisconnection`. -/
def handleDisconnection (s : ServerState) (ws : ConnId) : ServerState :=
  let s1 :=
    if s.master = some ws then { s with master := none }
    else
      match jmGet s.wsClientId ws with
      | some cid =>
          if cid = "" then s else { s with clients := jmDelete s.clients cid }
      | none => s
  { s1 with pendingRequests :=
      s1.pendingRequests.filter (fun p => p.2.clientWs ≠ ws) }

/-- A transport-level event the broker reacts to: a frame that fails JSON
parsing, a parsed message, or a connection close. -/
inductive SEvent : Type where
  | malformed : ConnId → SEvent
  | msg : ConnId → WireMsg → Nat → SEvent
  | disconnect : ConnId → SEvent


/-- One broker event step, including the `JSON.parse` failure branch of
`setupServer`, which answers `\x7b error: 'Invalid JSON message' \x7d` on
the same connection. -/
def serverStep (s : ServerState) (e : SEvent) : ServerState × List SOut :=
  match e with
  | .malformed ws => (s, [.send ws { error := some "Invalid JSON message" }])
  | .msg ws m now => handleMessage s ws m now
  | .disconnect ws => (handleDisconnection s ws, [])

/-- Run the broker over a list of events, accumulating outputs. -/
def serverRun (s : ServerState) (evs : List SEvent) :
    ServerState × List SOut :=
  match evs with
  | [] => (s, [])
  | e :: rest =>
      let (s1, out1) := serverStep s e
      let (s2, out2) := serverRun s1 rest
      (s2, out1 ++ out2)

/-! ## The egress executor (`src/master/app.js`) -/

/-- The `timeout` option of the real HTTP call (30 seconds, in
milliseconds). -/
def requestTimeoutMs : Nat := 30000

/-- The header keys deleted from `options.headers` in
`MasterProxy.forwardRequest` before the real HTTP call. -/
def strippedHeaderKeys : List String :=
  ["host", "content-length", "sec-websocket-key", "sec-websocket-version",
   "sec-websocket-extensions", "upgrade", "connection"]

/-- `options.headers` after the `delete` statements of
`MasterProxy.forwardRequest`: the spread copy of the inbound headers with
the problematic keys removed. -/
def stripHeaders (hs : List (String × String)) : List (String × String) :=
  hs.filter (fun p => ¬ strippedHeaderKeys.contains p.1)

/-- The body bytes written to the real HTTP request by
`MasterProxy.forwardRequest`: written only when `body` is truthy and the
method is POST, PUT or PATCH; a body of object shape goes through
`JSON.stringify`, anything else is written as is. -/
def writtenBody (method : Option String) (body : Option JValue) :
    Option JValue :=
  match body with
  | none => none
  | some b =>
      if jsTruthy b ∧ (method = some "POST" ∨ method = some "PUT" ∨
          method = some "PATCH") then
        if jsTypeofObject b then some (.jstr (jsonStringify b)) else some b
      else none

/-- The outcome of the real HTTP call awaited by
`MasterProxy.handleRequest`: either a settled response, or a rejection
whose message is the transport error message (for the 30-second timeout,
`'Request timeout'`). -/
structure RealResponse : Type where
  statusCode : Int
  headers : Option JValue
  body : Option JValue

/-- `MasterProxy.sendResponse`: the envelope written back to the broker on
success. -/
def sendResponse (requestId : Option String) (r : RealResponse) : WireMsg :=
  { type := some "response", requestId := requestId,
    statusCode := some r.statusCode, headers := r.headers, body := r.body }

/-- `MasterProxy.sendError`: the envelope written back to the broker when
the real call rejects. -/
def sendError (requestId : Option String) (error : String) : WireMsg :=
  { type := some "response", requestId := requestId, statusCode := some 500,
    headers := some (.jobj [("content-type", .jstr "application/json")]),
    body := some (.jobj [("error", .jstr error)]) }

/-- `MasterProxy.handleRequest`: await `forwardRequest` and send exactly
one envelope back, `sendResponse` on fulfilment and `sendError` on
rejection. -/
def masterHandleRequest (m : WireMsg) (outcome : Except String RealResponse) :
    WireMsg :=
  match outcome with
  | .ok r => sendResponse m.requestId r
  | .error e => sendError m.requestId e

/-! ## The ingress adapter (`src/client/app.js`) -/

/-- The fixed timeout armed by `ClientProxy.handleRequest` for each
pending entry (30 seconds, in milliseconds). -/
def clientRequestTimeoutMs : Nat := 30000

/-- One entry of the ingress `pendingRequests` map: the stored Express
response object (identified abstractly) with the `timeout` handle attached
to it. -/
structure ClientPending : Type where
  res : Nat
  hasTimeout : Bool

/-- The mutable fields of `ClientProxy` relevant to request routing. -/
structure ClientState : Type where
  pendingRequests : List (String × ClientPending)
  isConnected : Bool

/-- An action performed on a waiting Express response object. -/
inductive HttpAction : Type where
  | deliver : Nat → Option Int → Option JValue → Option JValue → HttpAction
  | errorResponse : Nat → Option String → HttpAction
  | timeoutResponse : Nat → HttpAction
  | unavailable : Nat → HttpAction

/-- The response object an action acts on. -/
def HttpAction.resOf : HttpAction → Nat
  | .deliver r _ _ _ => r
  | .errorResponse r _ => r
  | .timeoutResponse r => r
  | .unavailable r => r

/-- `ClientProxy.handleRequest`: reject with 503 when disconnected,
otherwise record the response handle under a fresh uuid, arm the
30-second timeout and send the request envelope (returned as the third
component). -/
def clientHandleRequest (s : ClientState) (rid : String) (res : Nat)
    (req : WireMsg) : ClientState × List HttpAction × List WireMsg :=
  if s.isConnected then
    ({ s with pendingRequests := jmSet s.pendingRequests rid ⟨res, true⟩ },
     [],
     [{ type := some "request", requestId := some rid, method := req.method,
        path := req.path, headers := req.headers, body := req.body,
        query := req.query }])
  else (s, [.unavailable res], [])

/-- `ClientProxy.handleResponse`. -/
def clientHandleResponse (s : ClientState) (m : WireMsg) :
    ClientState × List HttpAction :=
  match m.requestId with
  | none => (s, [])
  | some r =>
      match jmGet s.pendingRequests r with
      | none => (s, [])
      | some pending =>
          ({ s with pendingRequests := jmDelete s.pendingRequests r },
           [.deliver pending.res m.statusCode m.headers m.body])

/-- `ClientProxy.handleError`. -/
def clientHandleError (s : ClientState) (m : WireMsg) :
    ClientState × List HttpAction :=
  match m.requestId with
  | none => (s, [])
  | some r =>
      match jmGet s.pendingRequests r with
      | none => (s, [])
      | some pending =>
          ({ s with pendingRequests := jmDelete s.pendingRequests r },
           [.errorResponse pending.res m.error])

/-- The 30-second timeout callback armed by `ClientProxy.handleRequest`:
act only when the entry is still present. -/
def clientTimeoutFire (s : ClientState) (r : String) :
    ClientState × List HttpAction :=
  match jmGet s.pendingRequests r with
  | none => (s, [])
  | some pending =>
      ({ s with pendingRequests := jmDelete s.pendingRequests r },
       [.timeoutResponse pending.res])

/-- An event that can settle an ingress pending entry: a broker message
(dispatched by `ClientProxy.handleMessage` on its `type`) or a timeout
callback firing. -/
inductive CEvent : Type where
  | wsMsg : WireMsg → CEvent
  | timeoutFire : String → CEvent

/-- One ingress event step (`ClientProxy.handleMessage` plus the timeout
callback). -/
def clientStep (s : ClientState) (e : CEvent) : ClientState × List HttpAction :=
  match e with
  | .wsMsg m =>
      match m.type with
      | some "response" => clientHandleResponse s m
      | some "error" => clientHandleError s m
      | _ => (s, [])
  | .timeoutFire r => clientTimeoutFire s r

/-- Run the ingress adapter over a list of events, accumulating HTTP
actions. -/
def clientRun (s : ClientState) (evs : List CEvent) :
    ClientState × List HttpAction :=
  match evs with
  | [] => (s, [])
  | e :: rest =>
      let (s1, out1) := clientStep s e
      let (s2, out2) := clientRun s1 rest
      (s2, out1 ++ out2)

/-- Whether an event targets correlation id `r` through one of the three
settling outcomes: a Response envelope for `r`, an Error envelope for `r`,
or the timeout for `r` firing. -/
def targetsId (e : CEvent) (r : String) : Prop :=
  match e with
  | .wsMsg m => (m.type = some "response" ∨ m.type = some "error") ∧
      m.requestId = some r
  | .timeoutFire r0 => r0 = r

/-! ## Lemmas about the association-list maps -/

theorem jmGet_jmSet_self {κ α : Type} [DecidableEq κ] (m : List (κ × α))
    (k : κ) (v : α) : jmGet (jmSet m k v) k = some v := by
  induction m with
  | nil => simp [jmSet, jmGet]
  | cons hd t ih =>
      obtain ⟨k0, v0⟩ := hd
      by_cases hk : k0 = k <;> simp [jmSet, jmGet, hk, ih]

theorem jmGet_jmSet_ne {κ α : Type} [DecidableEq κ] (m : List (κ × α))
    (k k1 : κ) (v : α) (hne : k1 ≠ k) :
    jmGet (jmSet m k v) k1 = jmGet m k1 := by
  have hne2 : ¬ k = k1 := fun h => hne h.symm
  induction m with
  | nil => simp [jmSet, jmGet, hne2]
  | cons hd t ih =>
      obtain ⟨k0, v0⟩ := hd
      by_cases hk : k0 = k
      · subst hk
        simp [jmSet, jmGet, hne2]
      · simp [jmSet, jmGet, hk, ih]

theorem jmGet_jmDelete_self {κ α : Type} [DecidableEq κ] (m : List (κ × α))
    (k : κ) : jmGet (jmDelete m k) k = none := by
  induction m with
  | nil => simp [jmDelete, jmGet]
  | cons hd t ih =>
      obtain ⟨k0, v0⟩ := hd
      by_cases hk : k0 = k <;> simp [jmDelete, jmGet, hk, ih]

theorem jmGet_jmDelete_ne {κ α : Type} [DecidableEq κ] (m : List (κ × α))
    (k k1 : κ) (hne : k1 ≠ k) :
    jmGet (jmDelete m k) k1 = jmGet m k1 := by
  have hne2 : ¬ k = k1 := fun h => hne h.symm
  induction m with
  | nil => simp [jmDelete]
  | cons hd t ih =>
      obtain ⟨k0, v0⟩ := hd
      by_cases hk : k0 = k
      · subst hk
        simp [jmDelete, jmGet, hne2, ih]
      · simp [jmDelete, jmGet, hk, ih]

theorem jmGet_filter_prop {κ α : Type} [DecidableEq κ] (m : List (κ × α))
    (q : κ × α → Bool) (k : κ) (v : α)
    (h : jmGet (m.filter q) k = some v) : q (k, v) = true := by
  induction m with
  | nil => simp [jmGet] at h
  | cons hd t ih =>
      obtain ⟨k0, v0⟩ := hd
      by_cases hq : q (k0, v0)
      · rw [List.filter_cons_of_pos hq] at h
        by_cases hk : k0 = k
        · subst hk
          simp [jmGet] at h
          rw [← h]
          exact hq
        · rw [jmGet, if_neg hk] at h
          exact ih h
      · rw [List.filter_cons_of_neg (by simpa using hq)] at h
        exact ih h

theorem jmGet_filter_eq_some {κ α : Type} [DecidableEq κ]
    (m : List (κ × α)) (q : κ × α → Bool) (k : κ) (v : α)
    (hget : jmGet m k = some v) (hq : q (k, v) = true) :
    jmGet (m.filter q) k = some v := by
  induction m with
  | nil => simp [jmGet] at hget
  | cons hd t ih =>
      obtain ⟨k0, v0⟩ := hd
      by_cases hk : k0 = k
      · subst hk
        rw [jmGet, if_pos rfl] at hget
        injection hget with hv
        subst hv
        rw [List.filter_cons_of_pos hq, jmGet, if_pos rfl]
      · rw [jmGet, if_neg hk] at hget
        by_cases hq0 : q (k0, v0)
        · rw [List.filter_cons_of_pos hq0, jmGet, if_neg hk]
          exact ih hget
        · rw [List.filter_cons_of_neg (by simpa using hq0)]
          exact ih hget

theorem mem_keys_jmSet {κ α : Type} [DecidableEq κ] (m : List (κ × α))
    (k k1 : κ) (v : α) (h : k1 ∈ (jmSet m k v).map Prod.fst) :
    k1 = k ∨ k1 ∈ m.map Prod.fst := by
  induction m with
  | nil => simpa [jmSet] using h
  | cons hd t ih =>
      obtain ⟨k0, v0⟩ := hd
      by_cases hk : k0 = k
      · subst hk
        simpa [jmSet] using h
      · rw [jmSet, if_neg hk] at h
        simp only [List.map_cons, List.mem_cons] at h ⊢
        rcases h with h | h
        · exact Or.inr (Or.inl h)
        · rcases ih h with h1 | h1
          · exact Or.inl h1
          · exact Or.inr (Or.inr h1)

theorem nodupKeys_jmSet {κ α : Type} [DecidableEq κ] (m : List (κ × α))
    (k : κ) (v : α) (h : nodupKeys m) : nodupKeys (jmSet m k v) := by
  induction m with
  | nil => simp [jmSet, nodupKeys]
  | cons hd t ih =>
      obtain ⟨k0, v0⟩ := hd
      unfold nodupKeys at h ⊢
      simp only [List.map_cons, List.nodup_cons] at h
      by_cases hk : k0 = k
      · subst hk
        rw [show jmSet ((k0, v0) :: t) k0 v = (k0, v) :: t from by
          simp [jmSet]]
        simp only [List.map_cons, List.nodup_cons]
        exact h
      · rw [show jmSet ((k0, v0) :: t) k v = (k0, v0) :: jmSet t k v from by
          simp [jmSet, hk]]
        simp only [List.map_cons, List.nodup_cons]
        refine ⟨fun hmem => ?_, ih h.2⟩
        rcases mem_keys_jmSet t k k0 v hmem with h1 | h1
        · exact hk h1
        · exact h.1 h1

theorem nodupKeys_filter {κ α : Type} (m : List (κ × α))
    (q : κ × α → Bool) (h : nodupKeys m) : nodupKeys (m.filter q) :=
  List.Nodup.sublist (List.Sublist.map Prod.fst (List.filter_sublist m)) h

theorem jmDelete_eq_filter {κ α : Type} [DecidableEq κ] (m : List (κ × α))
    (k : κ) : jmDelete m k = m.filter (fun p => p.1 ≠ k) := by
  induction m with
  | nil => simp [jmDelete]
  | cons hd t ih =>
      obtain ⟨k0, v0⟩ := hd
      by_cases hk : k0 = k <;> simp [jmDelete, hk, ih]

theorem nodupKeys_jmDelete {κ α : Type} [DecidableEq κ] (m : List (κ × α))
    (k : κ) (h : nodupKeys m) : nodupKeys (jmDelete m k) := by
  rw [jmDelete_eq_filter]
  exact nodupKeys_filter m _ h

/-! ## C1: broker Response routing -/

/-- C1: a Response envelope from a connection other than the registered
egress is dropped with the state unchanged; a Response whose correlation
id is absent from the pending table (or missing) is dropped with the state
unchanged; otherwise the broker forwards a Response envelope with the same
correlation id, status code, headers and body to the ingress connection
recorded for that correlation id and removes the entry, so a second
Response with the same correlation id finds no entry. -/
theorem brokerResponseRouting (s : ServerState) (ws : ConnId) (m : WireMsg) :
    (s.master ≠ some ws → handleResponse s ws m = (s, [])) ∧
    (s.master = some ws → m.requestId = none →
      handleResponse s ws m = (s, [])) ∧
    (∀ r, s.master = some ws → m.requestId = some r →
      jmGet s.pendingRequests r = none → handleResponse s ws m = (s, [])) ∧
    (∀ r p, s.master = some ws → m.requestId = some r →
      jmGet s.pendingRequests r = some p →
      handleResponse s ws m =
        ({ s with pendingRequests := jmDelete s.pendingRequests r },
         [.send p.clientWs
            { type := some "response", requestId := some r,
              statusCode := m.statusCode, headers := m.headers,
              body := m.body }]) ∧
      jmGet (handleResponse s ws m).1.pendingRequests r = none) := by
  refine ⟨?_, ?_, ?_, ?_⟩
  · intro h
    rw [handleResponse, if_neg h]
  · intro h hm
    rw [handleResponse, if_pos h, hm]
  · intro r h hm hget
    rw [handleResponse, if_pos h, hm]
    simp only [hget]
  · intro r p h hm hget
    have hres : handleResponse s ws m =
        ({ s with pendingRequests := jmDelete s.pendingRequests r },
         [.send p.clientWs
            { type := some "response", requestId := some r,
              statusCode := m.statusCode, headers := m.headers,
              body := m.body }]) := by
      rw [handleResponse, if_pos h, hm]
      simp only [hget]
    refine ⟨hres, ?_⟩
    rw [hres]
    exact jmGet_jmDelete_self s.pendingRequests r

/-- A broker state with connection 0 registered as master and one pending
request owned by ingress connection 1, used to instantiate C1. -/
def c1State : ServerState :=
  { clients := [("cid1", 1)], master := some 0, requestId := 1,
    pendingRequests := [("r1", ⟨1, { type := some "request" }⟩)],
    wsClientId := [(1, "cid1")] }

def c1Resp : WireMsg :=
  { type := some "response", requestId := some "r1",
    statusCode := some 200, headers := some (.jobj []),
    body := some (.jstr "ok") }

theorem brokerResponseRoutingWitness :
    handleResponse c1State 0 c1Resp =
      ({ c1State with
          pendingRequests := jmDelete c1State.pendingRequests "r1" },
       [.send 1 { type := some "response", requestId := some "r1",
                  statusCode := c1Resp.statusCode,
                  headers := c1Resp.headers, body := c1Resp.body }]) ∧
    jmGet (handleResponse c1State 0 c1Resp).1.pendingRequests "r1" = none :=
  (brokerResponseRouting c1State 0 c1Resp).2.2.2 "r1"
    ⟨1, { type := some "request" }⟩ rfl rfl (by simp [c1State, jmGet])

/-! ## C2: egress failure reporting -/

def c2Req : WireMsg :=
  { type := some "request", requestId := some "abc",
    method := some "GET", path := some "/status" }

/-- C2 counterexample: when the real call rejects (here with the timeout
rejection message), the envelope sent back by the egress executor carries
the kind tag `response`, not the kind tag `error` the claim requires. -/
theorem egressErrorKindCounterexample :
    (masterHandleRequest c2Req (.error "Request timeout")).type =
      some "response" ∧
    (masterHandleRequest c2Req (.error "Request timeout")).type ≠
      some "error" := by
  constructor
  · rfl
  · intro h
    simp [masterHandleRequest, sendError, c2Req] at h

/-- C2 amended: a transport-level failure or 30-second timeout of the real
HTTP call is never silently dropped: the executor always sends back
exactly one envelope, a Response envelope with status code 500 whose JSON
body carries the failure's message, under the request's correlation id. -/
theorem egressFailureEnvelope (m : WireMsg) (e : String) :
    masterHandleRequest m (.error e) =
      { type := some "response", requestId := m.requestId,
        statusCode := some 500,
        headers := some (.jobj [("content-type", .jstr "application/json")]),
        body := some (.jobj [("error", .jstr e)]) } ∧
    requestTimeoutMs = 30000 :=
  ⟨rfl, rfl⟩

/-! ## C8: egress header stripping -/

theorem jmGet_filter_of_key {κ α : Type} [DecidableEq κ]
    (m : List (κ × α)) (q : κ × α → Bool) (k : κ)
    (hq : ∀ v, q (k, v) = true) : jmGet (m.filter q) k = jmGet m k := by
  induction m with
  | nil => simp
  | cons hd t ih =>
      obtain ⟨k0, v0⟩ := hd
      by_cases hk : k0 = k
      · subst hk
        rw [List.filter_cons_of_pos (hq v0)]
        simp [jmGet]
      · cases hq0 : q (k0, v0) with
        | true =>
            rw [List.filter_cons_of_pos hq0]
            simp [jmGet, hk, ih]
        | false =>
            rw [List.filter_cons_of_neg (by simp [hq0])]
            simp [jmGet, hk, ih]

/-- C8 counterexample: `MasterProxy.forwardRequest` also deletes the
`connection` header, which is not among the six keys the claim lists, so
an inbound `connection` header is not mapped to the same value by the
outbound header map. -/
theorem headerStripConnectionCounterexample :
    jmGet (stripHeaders [("connection", "keep-alive")]) "connection" =
      none ∧
    jmGet [("connection", "keep-alive")] "connection" = some "keep-alive" ∧
    "connection" ∉ ["host", "content-length", "sec-websocket-key",
      "sec-websocket-version", "sec-websocket-extensions", "upgrade"] := by
  refine ⟨by decide, by decide, by decide⟩

/-- C8 amended: the outbound header map contains none of the keys `host`,
`content-length`, `sec-websocket-key`, `sec-websocket-version`,
`sec-websocket-extensions`, `upgrade`, `connection` (whether or not the
inbound map contained them), maps every other key to the same value as the
inbound map, and stripping is idempotent. -/
theorem headerStripping (hs : List (String × String)) (k : String) :
    (k ∈ strippedHeaderKeys → jmGet (stripHeaders hs) k = none) ∧
    (k ∉ strippedHeaderKeys → jmGet (stripHeaders hs) k = jmGet hs k) ∧
    stripHeaders (stripHeaders hs) = stripHeaders hs := by
  refine ⟨?_, ?_, ?_⟩
  · intro hk
    cases hres : jmGet (stripHeaders hs) k with
    | none => rfl
    | some v =>
        have hprop := jmGet_filter_prop hs _ k v hres
        simp only [decide_eq_true_eq] at hprop
        exact absurd (by simpa using hk) hprop
  · intro hk
    refine jmGet_filter_of_key hs _ k (fun v => ?_)
    simp only [decide_eq_true_eq]
    simpa using hk
  · unfold stripHeaders
    rw [List.filter_filter]
    simp

theorem headerStrippingWitness :
    jmGet (stripHeaders [("host", "a"), ("accept", "b")]) "host" = none ∧
    jmGet (stripHeaders [("host", "a"), ("accept", "b")]) "accept" =
      jmGet [("host", "a"), ("accept", "b")] "accept" :=
  ⟨(headerStripping [("host", "a"), ("accept", "b")] "host").1 (by decide),
   (headerStripping [("host", "a"), ("accept", "b")] "accept").2.1
     (by decide)⟩

/-! ## C10: egress body forwarding -/

/-- C10: the request body is written to the outbound real HTTP call only
when the method is POST, PUT or PATCH (in particular a DELETE body is
dropped), and when written, a body of object shape is serialized with
`JSON.stringify` while any other body is written unmodified. -/
theorem egressBodyWriting (method : Option String) (b : JValue) :
    (writtenBody method (some b) ≠ none →
      method = some "POST" ∨ method = some "PUT" ∨ method = some "PATCH") ∧
    (jsTruthy b = true →
      (method = some "POST" ∨ method = some "PUT" ∨ method = some "PATCH") →
      writtenBody method (some b) =
        (if jsTypeofObject b then some (.jstr (jsonStringify b))
         else some b)) ∧
    writtenBody (some "DELETE") (some b) = none ∧
    writtenBody method none = none := by
  refine ⟨?_, ?_, ?_, rfl⟩
  · intro hne
    by_cases hc : jsTruthy b = true ∧ (method = some "POST" ∨
        method = some "PUT" ∨ method = some "PATCH")
    · exact hc.2
    · exfalso
      apply hne
      simp only [writtenBody]
      rw [if_neg (by simpa using hc)]
  · intro ht hm
    simp only [writtenBody]
    rw [if_pos ⟨ht, hm⟩]
  · simp only [writtenBody]
    rw [if_neg]
    rintro ⟨-, h | h | h⟩ <;> simp at h

theorem egressBodyWritingWitness :
    writtenBody (some "POST") (some (.jobj [("ok", .jbool true)])) ≠ none ∧
    writtenBody (some "POST") (some (.jobj [("ok", .jbool true)])) =
      some (.jstr (jsonStringify (.jobj [("ok", .jbool true)]))) ∧
    writtenBody (some "DELETE") (some (.jstr "data")) = none := by
  refine ⟨?_, ?_, ?_⟩
  · have h := (egressBodyWriting (some "POST")
      (.jobj [("ok", .jbool true)])).2.1 rfl (Or.inl rfl)
    rw [h]
    simp [jsTypeofObject]
  · have h := (egressBodyWriting (some "POST")
      (.jobj [("ok", .jbool true)])).2.1 rfl (Or.inl rfl)
    rw [h]
    simp [jsTypeofObject]
  · exact (egressBodyWriting (some "DELETE") (.jstr "data")).2.2.1

/-! ## C3: the ingress three-way race -/

theorem clientStep_pending_acts (s : ClientState) (e : CEvent) (r : String)
    (p : ClientPending) (hp : jmGet s.pendingRequests r = some p)
    (ht : targetsId e r) :
    ∃ a, clientStep s e =
      ({ s with pendingRequests := jmDelete s.pendingRequests r }, [a]) ∧
      HttpAction.resOf a = p.res := by
  cases e with
  | wsMsg m =>
      obtain ⟨hty, hrid⟩ := ht
      rcases hty with hty | hty
      · exact ⟨.deliver p.res m.statusCode m.headers m.body,
          by simp [clientStep, clientHandleResponse, hty, hrid, hp], rfl⟩
      · exact ⟨.errorResponse p.res m.error,
          by simp [clientStep, clientHandleError, hty, hrid, hp], rfl⟩
  | timeoutFire r0 =>
      have hr : r0 = r := ht
      subst hr
      exact ⟨.timeoutResponse p.res,
        by simp [clientStep, clientTimeoutFire, hp], rfl⟩

theorem clientStep_pending_noop (s : ClientState) (e : CEvent) (r : String)
    (hp : jmGet s.pendingRequests r = none) (ht : targetsId e r) :
    clientStep s e = (s, []) := by
  cases e with
  | wsMsg m =>
      obtain ⟨hty, hrid⟩ := ht
      rcases hty with hty | hty
      · simp [clientStep, clientHandleResponse, hty, hrid, hp]
      · simp [clientStep, clientHandleError, hty, hrid, hp]
  | timeoutFire r0 =>
      have hr : r0 = r := ht
      subst hr
      simp [clientStep, clientTimeoutFire, hp]

theorem clientRun_pending_noop (s : ClientState) (r : String)
    (evs : List CEvent) (hp : jmGet s.pendingRequests r = none)
    (hall : ∀ e ∈ evs, targetsId e r) : clientRun s evs = (s, []) := by
  induction evs with
  | nil => rfl
  | cons e rest ih =>
      have h1 : clientStep s e = (s, []) :=
        clientStep_pending_noop s e r hp (hall e (List.mem_cons_self e rest))
      have h2 : clientRun s rest = (s, []) :=
        ih (fun e0 he0 => hall e0 (List.mem_cons_of_mem e he0))
      simp [clientRun, h1, h2]

/-- C3: the ingress-local pending table has at most one entry per
correlation id (entry insertion and every event step preserve
duplicate-freedom), and of the three outcomes that can settle a
correlation id — matching Response delivery, matching Error delivery, or
the 30-second timeout firing — exactly the first one to occur acts on the
stored waiting HTTP response and removes the entry, while every later one
finds no entry and does nothing. -/
theorem ingressPendingRace (s : ClientState) (r : String)
    (p : ClientPending) (e : CEvent) (rest : List CEvent)
    (hp : jmGet s.pendingRequests r = some p)
    (hall : ∀ e0 ∈ e :: rest, targetsId e0 r)
    (hnd : nodupKeys s.pendingRequests) :
    (∀ (s0 : ClientState) (rid : String) (res : Nat) (req : WireMsg),
        nodupKeys s0.pendingRequests →
        nodupKeys (clientHandleRequest s0 rid res req).1.pendingRequests) ∧
    nodupKeys (clientStep s e).1.pendingRequests ∧
    (∃ a, clientStep s e =
        ({ s with pendingRequests := jmDelete s.pendingRequests r }, [a]) ∧
      HttpAction.resOf a = p.res ∧
      clientRun s (e :: rest) =
        ({ s with pendingRequests := jmDelete s.pendingRequests r }, [a]) ∧
      jmGet (jmDelete s.pendingRequests r) r = none) := by
  obtain ⟨a, hstep, hres⟩ := clientStep_pending_acts s e r p hp
    (hall e (List.mem_cons_self e rest))
  refine ⟨?_, ?_, a, hstep, hres, ?_, jmGet_jmDelete_self _ r⟩
  · intro s0 rid res req hnd0
    by_cases hc : s0.isConnected <;>
      simp [clientHandleRequest, hc, nodupKeys_jmSet, hnd0]
  · rw [hstep]
    exact nodupKeys_jmDelete _ r hnd
  · have hr2 : clientRun
        { s with pendingRequests := jmDelete s.pendingRequests r } rest =
        ({ s with pendingRequests := jmDelete s.pendingRequests r }, []) :=
      clientRun_pending_noop _ r rest (jmGet_jmDelete_self _ r)
        (fun e0 he0 => hall e0 (List.mem_cons_of_mem e he0))
    simp [clientRun, hstep, hr2]

/-- Ingress state with one pending entry for uuid `u1` stored under
response handle 7, used to instantiate C3. -/
def c3State : ClientState :=
  { pendingRequests := [("u1", ⟨7, true⟩)], isConnected := true }

def c3Ev : CEvent :=
  .wsMsg { type := some "response", requestId := some "u1",
           statusCode := some 200 }

def c3Rest : List CEvent :=
  [.timeoutFire "u1",
   .wsMsg { type := some "error", requestId := some "u1",
            error := some "boom" }]

theorem ingressPendingRaceWitness :
    (∀ (s0 : ClientState) (rid : String) (res : Nat) (req : WireMsg),
        nodupKeys s0.pendingRequests →
        nodupKeys (clientHandleRequest s0 rid res req).1.pendingRequests) ∧
    nodupKeys (clientStep c3State c3Ev).1.pendingRequests ∧
    (∃ a, clientStep c3State c3Ev =
        ({ c3State with
            pendingRequests := jmDelete c3State.pendingRequests "u1" },
         [a]) ∧
      HttpAction.resOf a = 7 ∧
      clientRun c3State (c3Ev :: c3Rest) =
        ({ c3State with
            pendingRequests := jmDelete c3State.pendingRequests "u1" },
         [a]) ∧
      jmGet (jmDelete c3State.pendingRequests "u1") "u1" = none) :=
  ingressPendingRace c3State "u1" ⟨7, true⟩ c3Ev c3Rest
    (by simp [c3State, jmGet])
    (by
      intro e0 he0
      simp only [c3Ev, c3Rest, List.mem_cons, List.mem_singleton] at he0
      rcases he0 with rfl | rfl | rfl | h
      · exact ⟨Or.inl rfl, rfl⟩
      · exact rfl
      · exact ⟨Or.inr rfl, rfl⟩
      · exact absurd h (List.not_mem_nil e0))
    (by simp [c3State, nodupKeys])

/-! ## C9: malformed payloads -/

/-- The object the broker sends on a `JSON.parse` failure:
`\x7b error: 'Invalid JSON message' \x7d`, with no `type` property. -/
def parseErrorReply : WireMsg := { error := some "Invalid JSON message" }

/-- C9 counterexample: the reply to a non-JSON payload carries no
`type:"error"` kind tag at all — its `type` property is absent — so it is
not an Error envelope in the sense of the wire table. -/
theorem parseErrorReplyCounterexample :
    serverStep initialServerState (.malformed 0) =
      (initialServerState, [.send 0 parseErrorReply]) ∧
    parseErrorReply.type = none ∧
    parseErrorReply.type ≠ some "error" := by
  refine ⟨rfl, rfl, by simp [parseErrorReply]⟩

/-- C9 amended: for every payload that is not parseable as JSON, the
broker replies on the same connection with a bare JSON object whose only
property is an `error` field describing the parse failure (it carries no
`type` tag), does not terminate the connection, and modifies neither the
registry nor the pending table (the state is returned unchanged). -/
theorem parseErrorHandling (s : ServerState) (ws : ConnId) :
    serverStep s (.malformed ws) = (s, [.send ws parseErrorReply]) ∧
    parseErrorReply.error = some "Invalid JSON message" ∧
    parseErrorReply.type = none :=
  ⟨rfl, rfl, rfl⟩

/-! ## C4: requests with no egress registered, egress disconnect -/

def c4xRegMaster : WireMsg :=
  { type := some "register", role := some "master" }

def c4xReq : WireMsg :=
  { type := some "request", requestId := some "rq0", method := some "GET" }

/-- C4 counterexample: (i) the synthesized error reason is the literal
string `Master computer not available`, not `target unavailable`; (ii) on
egress disconnect the broker does not only clear the egress slot — in the
reachable state where the egress connection itself sent a Request, the
disconnect also removes that pending entry. -/
theorem noEgressCounterexample :
    ((serverStep initialServerState (.msg 1 c4xReq 5)).2 =
      [.send 1 { type := some "error", requestId := some "rq0",
                 error := some "Master computer not available" }] ∧
     some "Master computer not available" ≠ some "target unavailable") ∧
    (jmGet (serverRun initialServerState
        [.msg 0 c4xRegMaster 1, .msg 0 c4xReq 2]).1.pendingRequests "rq0" =
        some ⟨0, c4xReq⟩ ∧
     (serverRun initialServerState
        [.msg 0 c4xRegMaster 1, .msg 0 c4xReq 2,
         .disconnect 0]).1.master = none ∧
     jmGet (serverRun initialServerState
        [.msg 0 c4xRegMaster 1, .msg 0 c4xReq 2,
         .disconnect 0]).1.pendingRequests "rq0" = none) := by
  refine ⟨⟨rfl, by simp⟩, rfl, rfl, rfl⟩

/-- C4 amended: while no egress connection is registered, every Request
envelope is immediately answered to its sender with an Error envelope
whose reason is `Master computer not available`, with the whole broker
state (pending table included) unchanged; on egress disconnect the broker
clears the single-egress slot and additionally purges the pending entries
owned by that same connection (which exist only if the egress itself sent
Requests) — every entry owned by another connection is untouched. -/
theorem noEgressRequestHandling (s : ServerState) (ws : ConnId)
    (m : WireMsg) (now : Nat) :
    (s.master = none → handleRequest s ws m now =
      (s, [.send ws { type := some "error", requestId := m.requestId,
                      error := some "Master computer not available" }])) ∧
    (s.master = some ws → handleDisconnection s ws =
      { s with master := none,
               pendingRequests := s.pendingRequests.filter
                 (fun p => p.2.clientWs ≠ ws) }) ∧
    (∀ r p, s.master = some ws → jmGet s.pendingRequests r = some p →
      p.clientWs ≠ ws →
      jmGet (handleDisconnection s ws).pendingRequests r = some p) := by
  refine ⟨?_, ?_, ?_⟩
  · intro h
    simp only [handleRequest, h]
  · intro h
    simp [handleDisconnection, h]
  · intro r p h hget hne
    have hd : (handleDisconnection s ws).pendingRequests =
        s.pendingRequests.filter (fun p => p.2.clientWs ≠ ws) := by
      simp [handleDisconnection, h]
    rw [hd]
    exact jmGet_filter_eq_some s.pendingRequests _ r p hget (by simpa using hne)

def c4State : ServerState :=
  { clients := [("cidA", 1)], master := some 0, requestId := 0,
    pendingRequests := [("rA", ⟨1, { type := some "request" }⟩)],
    wsClientId := [(1, "cidA")] }

theorem noEgressRequestHandlingWitness :
    handleRequest initialServerState 1 c4xReq 5 =
      (initialServerState,
       [.send 1 { type := some "error", requestId := some "rq0",
                  error := some "Master computer not available" }]) ∧
    handleDisconnection c4State 0 =
      { c4State with master := none,
                     pendingRequests := c4State.pendingRequests.filter
                       (fun p => p.2.clientWs ≠ 0) } ∧
    jmGet (handleDisconnection c4State 0).pendingRequests "rA" =
      some ⟨1, { type := some "request" }⟩ :=
  ⟨(noEgressRequestHandling initialServerState 1 c4xReq 5).1 rfl,
   (noEgressRequestHandling c4State 0 c4xReq 5).2.1 rfl,
   (noEgressRequestHandling c4State 0 c4xReq 5).2.2 "rA"
     ⟨1, { type := some "request" }⟩ rfl (by simp [c4State, jmGet])
     (by decide)⟩

/-! ## C5: no registration gate -/

def c5RegMaster : WireMsg :=
  { type := some "register", role := some "master" }

def c5Req : WireMsg :=
  { type := some "request", requestId := some "rq5", method := some "GET",
    path := some "/x" }

/-- C5 counterexample: connection 1 never sends a Register envelope, yet
its very first message — a Request envelope — is fully processed: the
broker records a pending entry owned by connection 1 and forwards the
request to the egress connection (and no connection is terminated). -/
theorem registrationGateCounterexample :
    jmGet (serverRun initialServerState
      [.msg 0 c5RegMaster 1, .msg 1 c5Req 2]).1.pendingRequests "rq5" =
      some ⟨1, c5Req⟩ ∧
    (serverRun initialServerState
      [.msg 0 c5RegMaster 1, .msg 1 c5Req 2]).2 =
      [.send 0 { type := some "registered", role := some "master" },
       .send 0 { type := some "request", requestId := some "rq5",
                 method := some "GET", path := some "/x" }] :=
  ⟨rfl, rfl⟩

/-- C5 amended: the broker performs no registration gating: every
incoming message is dispatched solely on its `type` field, and a Request
envelope sent as the first message of a connection that never registered
is processed exactly as one from a registered ingress — the broker records
the pending entry owned by that connection and forwards the request to the
egress connection; no connection is ever failed or terminated by the
broker in reaction to a message. -/
theorem noRegistrationGate (s : ServerState) (ws mw : ConnId) (m : WireMsg)
    (now : Nat) (r : String)
    (_hreg : jmGet s.wsClientId ws = none)
    (_hnotin : ∀ cid, jmGet s.clients cid ≠ some ws)
    (hmaster : s.master = some mw) (_hwm : ws ≠ mw)
    (hty : m.type = some "request")
    (hrid : m.requestId = some r) (hr : r ≠ "") :
    handleMessage s ws m now =
      ({ s with pendingRequests := jmSet s.pendingRequests r ⟨ws, m⟩ },
       [.send mw { type := some "request", requestId := some r,
                   method := m.method, path := m.path,
                   headers := m.headers, body := m.body,
                   query := m.query }]) := by
  simp only [handleMessage, hty, handleRequest, hmaster, hrid]
  rw [if_neg hr]

def c5State : ServerState :=
  { clients := [], master := some 0, requestId := 0,
    pendingRequests := [], wsClientId := [] }

theorem noRegistrationGateWitness :
    handleMessage c5State 1 c5Req 2 =
      ({ c5State with
          pendingRequests := jmSet c5State.pendingRequests "rq5"
            ⟨1, c5Req⟩ },
       [.send 0 { type := some "request", requestId := some "rq5",
                  method := c5Req.method, path := c5Req.path,
                  headers := c5Req.headers, body := c5Req.body,
                  query := c5Req.query }]) :=
  noRegistrationGate c5State 1 0 c5Req 2 "rq5" rfl
    (by intro cid; simp [c5State, jmGet]) rfl (by decide) rfl rfl
    (by decide)

/-! ## C6: correlation-id reuse in the broker pending table -/

def c6Reg : WireMsg :=
  { type := some "register", role := some "master" }

def c6Req : WireMsg :=
  { type := some "request", requestId := some "X", method := some "GET" }

/-- C6 counterexample: a second Request supplying the sender-chosen
correlation id `X` while `X` is still pending is recorded for the second,
distinct connection — the broker overwrites the pending entry instead of
refusing the reuse. -/
theorem pendingKeyReuseCounterexample :
    jmGet (serverRun initialServerState
      [.msg 0 c6Reg 1, .msg 1 c6Req 2]).1.pendingRequests "X" =
      some ⟨1, c6Req⟩ ∧
    jmGet (serverRun initialServerState
      [.msg 0 c6Reg 1, .msg 1 c6Req 2,
       .msg 2 c6Req 3]).1.pendingRequests "X" =
      some ⟨2, c6Req⟩ ∧
    (1 : ConnId) ≠ 2 :=
  ⟨rfl, rfl, by decide⟩

theorem handleRequest_pending_shape (s : ServerState) (ws : ConnId)
    (m : WireMsg) (now : Nat) :
    (handleRequest s ws m now).1.pendingRequests = s.pendingRequests ∨
    ∃ rid, (handleRequest s ws m now).1.pendingRequests =
      jmSet s.pendingRequests rid ⟨ws, m⟩ := by
  rcases hm : s.master with _ | mw
  · left
    simp only [handleRequest, hm]
  · right
    rcases hr : m.requestId with _ | r
    · exact ⟨"req_" ++ toString (s.requestId + 1) ++ "_" ++ toString now,
        by simp only [handleRequest, hm, hr]⟩
    · by_cases he : r = ""
      · refine ⟨"req_" ++ toString (s.requestId + 1) ++ "_" ++
          toString now, ?_⟩
        simp only [handleRequest, hm, hr]
        rw [if_pos he]
      · refine ⟨r, ?_⟩
        simp only [handleRequest, hm, hr]
        rw [if_neg he]

theorem handleResponse_pending_shape (s : ServerState) (ws : ConnId)
    (m : WireMsg) :
    (handleResponse s ws m).1.pendingRequests = s.pendingRequests ∨
    ∃ r, (handleResponse s ws m).1.pendingRequests =
      jmDelete s.pendingRequests r := by
  by_cases hm : s.master = some ws
  · rcases hr : m.requestId with _ | r
    · left
      simp only [handleResponse, if_pos hm, hr]
    · rcases hget : jmGet s.pendingRequests r with _ | p
      · left
        simp only [handleResponse, if_pos hm, hr, hget]
      · right
        exact ⟨r, by simp only [handleResponse, if_pos hm, hr, hget]⟩
  · left
    simp only [handleResponse, if_neg hm]

theorem handleRegistration_pending (s : ServerState) (ws : ConnId)
    (m : WireMsg) (now : Nat) :
    (handleRegistration s ws m now).1.pendingRequests =
      s.pendingRequests := by
  simp only [handleRegistration]
  split
  · rfl
  · split <;> rfl

theorem handleDisconnection_pending (s : ServerState) (ws : ConnId) :
    (handleDisconnection s ws).pendingRequests =
      s.pendingRequests.filter (fun p => p.2.clientWs ≠ ws) := by
  simp only [handleDisconnection]
  split
  · rfl
  · split
    · split <;> rfl
    · rfl

theorem serverStep_nodupKeys (s : ServerState) (e : SEvent)
    (h : nodupKeys s.pendingRequests) :
    nodupKeys (serverStep s e).1.pendingRequests := by
  cases e with
  | malformed ws => exact h
  | disconnect ws =>
      show nodupKeys (handleDisconnection s ws).pendingRequests
      rw [handleDisconnection_pending]
      exact nodupKeys_filter _ _ h
  | msg ws m now =>
      show nodupKeys (handleMessage s ws m now).1.pendingRequests
      simp only [handleMessage]
      split
      · rw [handleRegistration_pending]
        exact h
      · rcases handleRequest_pending_shape s ws m now with hs | ⟨rid, hs⟩
        · rw [hs]
          exact h
        · rw [hs]
          exact nodupKeys_jmSet _ rid _ h
      · rcases handleResponse_pending_shape s ws m with hs | ⟨r, hs⟩
        · rw [hs]
          exact h
        · rw [hs]
          exact nodupKeys_jmDelete _ r h
      · exact h

theorem serverRun_nodupKeys (s : ServerState) (evs : List SEvent)
    (h : nodupKeys s.pendingRequests) :
    nodupKeys (serverRun s evs).1.pendingRequests := by
  induction evs generalizing s with
  | nil => exact h
  | cons e rest ih =>
      have h1 := serverStep_nodupKeys s e h
      rcases hs : serverStep s e with ⟨s1, out1⟩
      rw [hs] at h1
      simpa [serverRun, hs] using ih s1 h1

/-- C6 amended: in every state the broker can reach, the pending table
never holds two entries with the same key (a JS `Map` cannot); but a
sender-supplied correlation id equal to a currently pending key is not
refused — the broker records it for the second request, overwriting the
entry of the first while the first is still in flight. -/
theorem pendingTableKeys (evs : List SEvent) :
    nodupKeys (serverRun initialServerState evs).1.pendingRequests ∧
    (∀ (s : ServerState) (ws mw : ConnId) (m : WireMsg) (now : Nat)
        (r : String) (p : Pending),
      s.master = some mw → m.requestId = some r → r ≠ "" →
      jmGet s.pendingRequests r = some p →
      jmGet (handleRequest s ws m now).1.pendingRequests r =
        some ⟨ws, m⟩) := by
  constructor
  · exact serverRun_nodupKeys initialServerState evs
      (by simp [initialServerState, nodupKeys])
  · intro s ws mw m now r p hm hr he hget
    have hshape : (handleRequest s ws m now).1.pendingRequests =
        jmSet s.pendingRequests r ⟨ws, m⟩ := by
      simp only [handleRequest, hm, hr]
      rw [if_neg he]
    rw [hshape]
    exact jmGet_jmSet_self _ r _

theorem pendingTableKeysWitness :
    nodupKeys (serverRun initialServerState
      [.msg 0 c6Reg 1, .msg 1 c6Req 2]).1.pendingRequests ∧
    jmGet (handleRequest
        (serverRun initialServerState
          [.msg 0 c6Reg 1, .msg 1 c6Req 2]).1 2 c6Req 3).1.pendingRequests
      "X" = some ⟨2, c6Req⟩ :=
  ⟨(pendingTableKeys [.msg 0 c6Reg 1, .msg 1 c6Req 2]).1,
   (pendingTableKeys []).2
     (serverRun initialServerState [.msg 0 c6Reg 1, .msg 1 c6Req 2]).1
     2 0 c6Req 3 "X" ⟨1, c6Req⟩ rfl rfl (by decide) rfl⟩

/-! ## C7: ingress disconnect -/

def c7RegA : WireMsg :=
  { type := some "register", role := some "client", clientId := some "a" }

def c7RegB : WireMsg :=
  { type := some "register", role := some "client", clientId := some "b" }

/-- C7 counterexample: connection 1 registers twice, first under id `a`
and then under id `b`; on disconnect the broker deletes only the mapping
under the most recent id `b`, so the ingress set still contains the
disconnected connection 1 under id `a`. -/
theorem ingressDisconnectCounterexample :
    (serverRun initialServerState
      [.msg 1 c7RegA 1, .msg 1 c7RegB 2]).1.clients =
      [("a", 1), ("b", 1)] ∧
    (serverRun initialServerState
      [.msg 1 c7RegA 1, .msg 1 c7RegB 2, .disconnect 1]).1.clients =
      [("a", 1)] ∧
    jmGet (serverRun initialServerState
      [.msg 1 c7RegA 1, .msg 1 c7RegB 2,
       .disconnect 1]).1.clients "a" = some 1 :=
  ⟨rfl, rfl, rfl⟩

/-- C7 amended: when an ingress connection disconnects, the broker
removes the clients-map entry under the connection's most recently
recorded identifier (a mapping left over from an earlier registration of
the same connection under a different identifier survives), and the
pending table afterwards contains no entry owned by the disconnected
connection while every entry owned by another connection is unchanged. -/
theorem ingressDisconnectPurge (s : ServerState) (ws : ConnId)
    (cid : String) (hm : s.master ≠ some ws)
    (hcid : jmGet s.wsClientId ws = some cid) (hne : cid ≠ "") :
    (handleDisconnection s ws).clients = jmDelete s.clients cid ∧
    (∀ r p, jmGet (handleDisconnection s ws).pendingRequests r = some p →
      p.clientWs ≠ ws) ∧
    (∀ r p, jmGet s.pendingRequests r = some p → p.clientWs ≠ ws →
      jmGet (handleDisconnection s ws).pendingRequests r = some p) := by
  refine ⟨?_, ?_, ?_⟩
  · simp only [handleDisconnection, if_neg hm, hcid]
    rw [if_neg hne]
  · intro r p hget
    rw [handleDisconnection_pending] at hget
    have := jmGet_filter_prop s.pendingRequests _ r p hget
    simpa using this
  · intro r p hget hne2
    rw [handleDisconnection_pending]
    exact jmGet_filter_eq_some s.pendingRequests _ r p hget
      (by simpa using hne2)

def c7State : ServerState :=
  { clients := [("a", 1), ("b", 2)], master := some 0, requestId := 0,
    pendingRequests := [("r1", ⟨1, { type := some "request" }⟩),
                        ("r2", ⟨2, { type := some "request" }⟩)],
    wsClientId := [(1, "a"), (2, "b")] }

theorem ingressDisconnectPurgeWitness :
    (handleDisconnection c7State 1).clients = jmDelete c7State.clients "a" ∧
    jmGet (handleDisconnection c7State 1).pendingRequests "r2" =
      some ⟨2, { type := some "request" }⟩ :=
  ⟨(ingressDisconnectPurge c7State 1 "a" (by simp [c7State]) rfl
      (by decide)).1,
   (ingressDisconnectPurge c7State 1 "a" (by simp [c7State]) rfl
      (by decide)).2.2 "r2" ⟨2, { type := some "request" }⟩
     (by simp [c7State, jmGet]) (by decide)⟩

end CardReaderForwarder
